import Mathlib

/-!
Verification of the RSS-to-chat delivery pipeline in `bot.py`.

Strings are modelled as `List Char` (Python `str`), so Python `len` is
`List.length` and slicing/striping are explicit list operations.  The
deduplication store, the message composer and the poll cycle
(`check_rss_feed`) are shallowly embedded; the cycle is instrumented with an
event trace recording warnings, send attempts, deliveries and logged errors,
in the order the corresponding side effects happen in the source.
-/

namespace RssBot

/-- Python strings are modelled as lists of characters. -/
abbrev Str := List Char

/-- `MAX_MESSAGE_LENGTH = 4096` from the configuration block. -/
def MAX_MESSAGE_LENGTH : Nat := 4096

/-- The newline character appended by `save_sent_item`. -/
def nl : Char := Char.ofNat 10

/-- The apostrophe character (used by the short-form message template). -/
def apos : Char := Char.ofNat 39

/-- `html.escape` on one character (`quote=True`, the default): `&`, `<`, `>`,
`"` and the apostrophe are replaced by their entity references. -/
def escapeChar (c : Char) : Str :=
  if c = '&' then "&amp;".toList
  else if c = '<' then "&lt;".toList
  else if c = '>' then "&gt;".toList
  else if c = '"' then "&quot;".toList
  else if c = apos then "&#x27;".toList
  else [c]

/-- `html.escape(s)`: each character replaced by `escapeChar`. -/
def pyEscape (s : Str) : Str := s.flatMap escapeChar

/-- Python whitespace for `str.strip()`, modelled over the ASCII whitespace
characters (space, tab, newline, carriage return, vertical tab, form feed);
the ids at play are ASCII so the Unicode cases are not modelled. -/
def isPySpace (c : Char) : Bool :=
  c = ' ' || c = Char.ofNat 9 || c = nl || c = Char.ofNat 13 ||
    c = Char.ofNat 11 || c = Char.ofNat 12

/-- Python `str.strip()`: drop whitespace from both ends. -/
def pyStrip (s : Str) : Str :=
  ((s.dropWhile isPySpace).reverse.dropWhile isPySpace).reverse

/-- Iterating a Python text file (`for line in f`): each yielded line keeps
its trailing newline; a final segment without a newline is yielded bare, and
nothing is yielded for an empty file. -/
def pyLinesAux : Str → Str → List Str
  | [], acc => if acc.isEmpty then [] else [acc.reverse]
  | c :: rest, acc =>
    if c = nl then (acc.reverse ++ [nl]) :: pyLinesAux rest []
    else pyLinesAux rest (c :: acc)

/-- The lines of a file's content, as Python file iteration yields them. -/
def pyLines (s : Str) : List Str := pyLinesAux s []

/-- `load_sent_items`: if the file does not exist (`none`) the in-memory set
stays empty; otherwise the set is `{line.strip() for line in f if line.strip()}`.
The set is modelled as a list up to membership. -/
def load_sent_items (file : Option Str) : List Str :=
  match file with
  | none => []
  | some content => ((pyLines content).map pyStrip).filter (fun l => !l.isEmpty)

/-- Python slicing `s[:n]` for an `int` bound `n` (negative bounds count from
the end, clamped at zero). -/
def pySliceTo (s : Str) (n : Int) : Str :=
  if 0 ≤ n then s.take n.toNat
  else s.take (s.length - (-n).toNat)

/-- The rendered title block `f"<b>{html.escape(title)}</b>\n\n"`. -/
def titleBlock (title : Str) : Str :=
  "<b>".toList ++ pyEscape title ++ "</b>\n\n".toList

/-- `"..."` appended after truncation. -/
def ellipsisStr : Str := "...".toList

/-- The two newlines appended after the description. -/
def nlnl : Str := "\n\n".toList

/-- `'<a href="'`, the opening of the full-form link element. -/
def anchorOpen : Str := "<a href=\"".toList

/-- `'">Read more</a>'`, the closing of the full-form link element. -/
def anchorClose : Str := "\">Read more</a>".toList

/-- `"No link available."`, the footer used by the full form when the link is
empty. -/
def noLinkFooter : Str := "No link available.".toList

/-- The full-form message of `check_rss_feed`: title block, then (when the
description is non-empty) the description truncated to
`MAX_MESSAGE_LENGTH - len(message) - len(link) - 50` with `"..."` appended,
then either the link element or the no-link footer. -/
def fullMessage (title link description : Str) : Str :=
  let message1 := titleBlock title
  let maxDescLen : Int :=
    (MAX_MESSAGE_LENGTH : Int) - message1.length - link.length - 50
  let message2 :=
    if description.isEmpty then message1
    else if maxDescLen < (description.length : Int) then
      message1 ++ (pySliceTo description maxDescLen ++ ellipsisStr) ++ nlnl
    else message1 ++ description ++ nlnl
  if link.isEmpty then message2 ++ noLinkFooter
  else message2 ++ anchorOpen ++ pyEscape link ++ anchorClose

/-- `"<a href='"`, the opening of the short-form link element (single
quotes in the source template). -/
def shortAnchorOpen : Str := "<a href=".toList ++ [apos]

/-- `"'>Read more</a>"`, the closing of the short-form link element. -/
def shortAnchorClose : Str := apos :: ">Read more</a>".toList

/-- The short-form fallback message
`f"<b>{html.escape(title)}</b>\n\n<a href='{html.escape(link)}'>Read more</a>"`. -/
def shortMessage (title link : Str) : Str :=
  "<b>".toList ++ pyEscape title ++ "</b>\n\n".toList ++
    shortAnchorOpen ++ pyEscape link ++ shortAnchorClose

/-- A normalized feed entry: each field is `some v` when the key is present
(possibly with an empty value) and `none` when absent, mirroring
`entry.get(key, default)` on the feedparser entry dictionary. -/
structure Entry where
  id : Option Str
  title : Option Str
  link : Option Str
  summary : Option Str
  description : Option Str
deriving DecidableEq, Repr

/-- `entry.get("id", entry.get("link"))`: the present value of `"id"`,
falling back to the (optional) value of `"link"`. -/
def entryItemId (e : Entry) : Option Str :=
  match e.id with
  | some v => some v
  | none => e.link

/-- `entry.get("title", "No Title")`. -/
def entryTitle (e : Entry) : Str := e.title.getD "No Title".toList

/-- `entry.get("link", "")`. -/
def entryLink (e : Entry) : Str := e.link.getD []

/-- `entry.get("summary", entry.get("description", ""))`. -/
def entryDescription (e : Entry) : Str :=
  match e.summary with
  | some s => s
  | none => e.description.getD []

/-- The full-form message composed for an entry. -/
def fullMsgOf (e : Entry) : Str :=
  fullMessage (entryTitle e) (entryLink e) (entryDescription e)

/-- The short-form message composed for an entry. -/
def shortMsgOf (e : Entry) : Str :=
  shortMessage (entryTitle e) (entryLink e)

/-- An entry passes the `if not item_id: continue` guard exactly when its
identifier is present and non-empty (Python truthiness). -/
def validEntry (e : Entry) : Bool :=
  match entryItemId e with
  | none => false
  | some i => !i.isEmpty

/-- The identifier of an entry, defaulting to the empty string. -/
def entryIdD (e : Entry) : Str := (entryItemId e).getD []

/-- Outcome of one `bot.send_message` call: normal return or a raised
exception carrying its message `str(e)`. -/
inductive SendResult where
  | ok : SendResult
  | exn (msg : Str) : SendResult
deriving DecidableEq, Repr

/-- The transport that always accepts a message. -/
def sendOk : Str → SendResult := fun _ => SendResult.ok

/-- `"message is too long" in str(e).lower()`: the textual oversize
classification of a send exception. -/
def isOversizeMsg (emsg : Str) : Bool :=
  decide ("message is too long".toList <:+: emsg.map Char.toLower)

/-- Observable events of one poll cycle, in chronological order: the warning
for an identity-less entry, the `"New item found"` log, a `send_message`
call, a `save_sent_item` call, and a logged send error. -/
inductive Event where
  | warnNoId : Event
  | newItem (id : Str) : Event
  | attempt (id : Str) (msg : Str) : Event
  | delivered (id : Str) : Event
  | errorLogged (id : Str) (emsg : Str) : Event
deriving DecidableEq, Repr

/-- The mutable state touched by a poll cycle: the in-memory sent-id set
(as a list up to membership), the durable file content, the
`new_items_found` counter and the event trace. -/
structure State where
  sent : List Str
  file : Str
  count : Nat
  trace : List Event
deriving DecidableEq, Repr

/-- `save_sent_item(item_id)`: add to the in-memory set and append
`item_id + "\n"` to the durable file. -/
def saveSentItem (st : State) (id : Str) : State :=
  { st with sent := id :: st.sent, file := st.file ++ id ++ [nl] }

/-- Processing of a single feed entry inside `check_rss_feed`'s loop:
resolve the identifier, skip identity-less entries with a warning, skip
already-sent ids, otherwise compose and send the full form, on success
record the id, on a raised exception log it and — when it is classified as
oversize — retry once with the short form. -/
def processEntry (send : Str → SendResult) (st : State) (e : Entry) : State :=
  match entryItemId e with
  | none => { st with trace := st.trace ++ [Event.warnNoId] }
  | some iid =>
    if iid.isEmpty then { st with trace := st.trace ++ [Event.warnNoId] }
    else if iid ∈ st.sent then st
    else
      let st1 := { st with trace :=
        st.trace ++ [Event.newItem iid, Event.attempt iid (fullMsgOf e)] }
      match send (fullMsgOf e) with
      | SendResult.ok =>
        let st2 := saveSentItem st1 iid
        { st2 with count := st2.count + 1,
                   trace := st2.trace ++ [Event.delivered iid] }
      | SendResult.exn em =>
        let st2 := { st1 with trace := st1.trace ++ [Event.errorLogged iid em] }
        if isOversizeMsg em then
          let st3 := { st2 with trace :=
            st2.trace ++ [Event.attempt iid (shortMsgOf e)] }
          match send (shortMsgOf e) with
          | SendResult.ok =>
            let st4 := saveSentItem st3 iid
            { st4 with count := st4.count + 1,
                       trace := st4.trace ++ [Event.delivered iid] }
          | SendResult.exn em2 =>
            { st3 with trace := st3.trace ++ [Event.errorLogged iid em2] }
        else st2

/-- The loop `for entry in reversed(feed.entries)`, already given the
reversed list. -/
def runEntries (send : Str → SendResult) : List Entry → State → State
  | [], st => st
  | e :: es, st => runEntries send es (processEntry send st e)

/-- The cycle state at the start of a poll cycle: the loaded set, the
current file content, a zero counter and an empty trace. -/
def initState (sent0 : List Str) (file0 : Str) : State :=
  { sent := sent0, file := file0, count := 0, trace := [] }

/-- The delivery portion of one poll cycle: iterate the feed entries in
reversed (oldest-first) order over the initial state. -/
def runCycle (send : Str → SendResult) (entries : List Entry)
    (sent0 : List Str) (file0 : Str) : State :=
  runEntries send entries.reverse (initState sent0 file0)

/-- `sendFailsFor send e` holds when the delivery of `e` under transport
`send` fails for good in one cycle: the full form raises, and the exception
is either not classified oversize or the short-form retry raises too. -/
def sendFailsFor (send : Str → SendResult) (e : Entry) : Bool :=
  match send (fullMsgOf e) with
  | SendResult.ok => false
  | SendResult.exn em =>
    if isOversizeMsg em then
      match send (shortMsgOf e) with
      | SendResult.ok => false
      | SendResult.exn _ => true
    else true

/-- The identifiers recorded by `delivered` events, in order. -/
def Event.deliveredId : Event → Option Str
  | Event.delivered i => some i
  | _ => none

/-- The identifiers attached to `attempt` events, in order. -/
def Event.attemptId : Event → Option Str
  | Event.attempt i _ => some i
  | _ => none

/-- The identifiers attached to `newItem` events, in order. -/
def Event.newItemId : Event → Option Str
  | Event.newItem i => some i
  | _ => none

/-- All delivered ids of a trace, in order. -/
def deliveredIds (tr : List Event) : List Str := tr.filterMap Event.deliveredId

/-- All attempted ids of a trace, in order. -/
def attemptIds (tr : List Event) : List Str := tr.filterMap Event.attemptId

/-- All candidate (`"New item found"`) ids of a trace, in order. -/
def newItemIds (tr : List Event) : List Str := tr.filterMap Event.newItemId

/-- The configuration visible to a poll cycle: the `chat_id_confirmed` flag
in `bot_data`, the `TARGET_CHAT_ID` environment value (absent or a possibly
empty string) and the `user_chat_id` captured from `/start`. -/
structure Config where
  chatIdConfirmed : Bool
  targetChatId : Option Str
  userChatId : Option Str

/-- Python falsiness of an optional string: `None` or the empty string. -/
def falsyOpt : Option Str → Bool
  | none => true
  | some s => s.isEmpty

/-- `TARGET_CHAT_ID or context.bot_data.get('user_chat_id')`: the first
operand when truthy, otherwise the second. -/
def resolveTarget (cfg : Config) : Option Str :=
  if falsyOpt cfg.targetChatId then cfg.userChatId else cfg.targetChatId

/-- Outcome of `feedparser.parse`: either a raised exception or a parsed
feed with its `bozo` flag and entry list (native, newest-first order). -/
inductive FetchOutcome where
  | raised (e : Str) : FetchOutcome
  | parsed (bozo : Bool) (entries : List Entry) : FetchOutcome

/-- The ways `check_rss_feed` returns normally: the early chat-id returns,
the `bozo` early return, the outer `except` having logged an exception, or
a completed delivery loop. -/
inductive CycleReturn where
  | skippedNoChat : CycleReturn
  | noTarget : CycleReturn
  | parseFailed : CycleReturn
  | outerCaught (e : Str) : CycleReturn
  | completed (st : State) : CycleReturn

/-- What can leave the `check_rss_feed` boundary: a normal return or a
propagated exception. -/
inductive Outcome where
  | returned (r : CycleReturn) : Outcome
  | raised (e : Str) : Outcome

/-- `check_rss_feed`, one poll cycle: the two chat-id guards, then the
`try` body (parse outcome, `bozo` check, delivery loop over the reversed
entries) under the outer `except Exception` that converts any raised
exception into a logged normal return. -/
def check_rss_feed (cfg : Config) (fetch : FetchOutcome)
    (send : Str → SendResult) (sent0 : List Str) (file0 : Str) : Outcome :=
  if !cfg.chatIdConfirmed && falsyOpt cfg.targetChatId then
    Outcome.returned CycleReturn.skippedNoChat
  else if falsyOpt (resolveTarget cfg) then
    Outcome.returned CycleReturn.noTarget
  else
    let tryBody : Except Str CycleReturn :=
      match fetch with
      | FetchOutcome.raised e => Except.error e
      | FetchOutcome.parsed bozo entries =>
        if bozo then Except.ok CycleReturn.parseFailed
        else Except.ok (CycleReturn.completed (runCycle send entries sent0 file0))
    match tryBody with
    | Except.error e => Outcome.returned (CycleReturn.outerCaught e)
    | Except.ok r => Outcome.returned r


/-- The transport that always raises a generic (non-oversize) exception. -/
def sendFail : Str → SendResult := fun _ => SendResult.exn "boom".toList

/-- The transport that always raises the Telegram over-length exception. -/
def sendOversize : Str → SendResult :=
  fun _ => SendResult.exn "Message is too long".toList

/-- A small concrete entry with id `"a"`, used for concrete instantiations. -/
def wEntryA : Entry := ⟨some ['a'], some ['A'], some ['l'], none, none⟩

/-- Concrete newest, middle and oldest entries of a three-entry feed. -/
def eNw : Entry := ⟨some ['n'], some ['N'], some "ln".toList, some ['s'], none⟩

/-- See `eNw`. -/
def eMd : Entry := ⟨some ['m'], some ['M'], some "lm".toList, some ['s'], none⟩

/-- See `eNw`. -/
def eOd : Entry := ⟨some ['o'], some ['O'], some "lo".toList, some ['s'], none⟩

/-- Concrete composition inputs exercising the truncation branch. -/
def cexTitle : Str := ['T']

/-- A seven-character link whose HTML escape is 31 characters long. -/
def cexLink : Str := "u&&&&&&".toList

/-- A 4030-character description, longer than the computed budget. -/
def cexDescription : Str := 'd' :: List.replicate 4029 'd'

end RssBot

namespace RssBot

variable {send : Str → SendResult} {st : State} {e : Entry} {iid : Str}

lemma processEntry_noId (h : entryItemId e = none) :
    processEntry send st e = { st with trace := st.trace ++ [Event.warnNoId] } := by
  unfold processEntry; rw [h]

lemma processEntry_emptyId (h : entryItemId e = some []) :
    processEntry send st e = { st with trace := st.trace ++ [Event.warnNoId] } := by
  unfold processEntry; rw [h]; simp

lemma processEntry_skip (h : entryItemId e = some iid) (hne : iid.isEmpty = false)
    (hmem : iid ∈ st.sent) : processEntry send st e = st := by
  unfold processEntry; rw [h]; simp [hne, hmem]

lemma processEntry_candidate_ok (h : entryItemId e = some iid)
    (hne : iid.isEmpty = false) (hmem : iid ∉ st.sent)
    (hsend : send (fullMsgOf e) = SendResult.ok) :
    processEntry send st e =
      { sent := iid :: st.sent, file := st.file ++ iid ++ [nl],
        count := st.count + 1,
        trace := st.trace ++ [Event.newItem iid, Event.attempt iid (fullMsgOf e),
          Event.delivered iid] } := by
  unfold processEntry; rw [h]; simp [hne, hmem, hsend, saveSentItem]

lemma processEntry_candidate_failOther (h : entryItemId e = some iid)
    (hne : iid.isEmpty = false) (hmem : iid ∉ st.sent) {em : Str}
    (hsend : send (fullMsgOf e) = SendResult.exn em)
    (hover : isOversizeMsg em = false) :
    processEntry send st e =
      { st with trace := st.trace ++ [Event.newItem iid,
          Event.attempt iid (fullMsgOf e), Event.errorLogged iid em] } := by
  unfold processEntry; rw [h]; simp [hne, hmem, hsend, hover]

lemma processEntry_oversize_ok (h : entryItemId e = some iid)
    (hne : iid.isEmpty = false) (hmem : iid ∉ st.sent) {em : Str}
    (hsend : send (fullMsgOf e) = SendResult.exn em)
    (hover : isOversizeMsg em = true)
    (hshort : send (shortMsgOf e) = SendResult.ok) :
    processEntry send st e =
      { sent := iid :: st.sent, file := st.file ++ iid ++ [nl],
        count := st.count + 1,
        trace := st.trace ++ [Event.newItem iid, Event.attempt iid (fullMsgOf e),
          Event.errorLogged iid em, Event.attempt iid (shortMsgOf e),
          Event.delivered iid] } := by
  unfold processEntry; rw [h]; simp [hne, hmem, hsend, hover, hshort, saveSentItem]

lemma processEntry_oversize_fail (h : entryItemId e = some iid)
    (hne : iid.isEmpty = false) (hmem : iid ∉ st.sent) {em em2 : Str}
    (hsend : send (fullMsgOf e) = SendResult.exn em)
    (hover : isOversizeMsg em = true)
    (hshort : send (shortMsgOf e) = SendResult.exn em2) :
    processEntry send st e =
      { st with trace := st.trace ++ [Event.newItem iid,
          Event.attempt iid (fullMsgOf e), Event.errorLogged iid em,
          Event.attempt iid (shortMsgOf e), Event.errorLogged iid em2] } := by
  unfold processEntry; rw [h]; simp [hne, hmem, hsend, hover, hshort, saveSentItem]

end RssBot

namespace RssBot

variable {send : Str → SendResult} {st : State} {e : Entry} {iid : Str}

lemma sendFailsFor_false_of_ok (hsend : send (fullMsgOf e) = SendResult.ok) :
    sendFailsFor send e = false := by simp [sendFailsFor, hsend]

lemma sendFailsFor_false_of_short_ok {em : Str}
    (hsend : send (fullMsgOf e) = SendResult.exn em)
    (hover : isOversizeMsg em = true)
    (hshort : send (shortMsgOf e) = SendResult.ok) :
    sendFailsFor send e = false := by
  simp [sendFailsFor, hsend, hover, hshort]

lemma processEntry_spec (send : Str → SendResult) (st : State) (e : Entry) :
    ∃ evs,
    (processEntry send st e).trace = st.trace ++ evs ∧
    (processEntry send st e).file =
      st.file ++ ((deliveredIds evs).map (fun i => i ++ [nl])).flatten ∧
    (∀ x, x ∈ (processEntry send st e).sent ↔ x ∈ deliveredIds evs ∨ x ∈ st.sent) ∧
    (∀ x, x ∈ deliveredIds evs →
      entryItemId e = some x ∧ x ∉ st.sent ∧ sendFailsFor send e = false) ∧
    (∀ x m, Event.attempt x m ∈ evs → entryItemId e = some x ∧ x ∉ st.sent) ∧
    (∀ x, Event.newItem x ∈ evs → entryItemId e = some x ∧ x ∉ st.sent) ∧
    (∀ x m, Event.errorLogged x m ∈ evs → entryItemId e = some x ∧ x ∉ st.sent) := by
  rcases he : entryItemId e with _ | iid
  · refine ⟨[Event.warnNoId], ?_⟩
    simp [processEntry_noId he, deliveredIds, Event.deliveredId]
  rcases hie : iid.isEmpty with _ | _
  · -- iid nonempty
    by_cases hmem : iid ∈ st.sent
    · refine ⟨[], ?_⟩
      simp [processEntry_skip he hie hmem, deliveredIds, hmem]
    rcases hs : send (fullMsgOf e) with _ | em
    · refine ⟨[Event.newItem iid, Event.attempt iid (fullMsgOf e),
        Event.delivered iid], ?_⟩
      rw [processEntry_candidate_ok he hie hmem hs]
      refine ⟨by simp, ?_, ?_, ?_, ?_, ?_, ?_⟩ <;>
        simp_all [deliveredIds, Event.deliveredId, sendFailsFor_false_of_ok hs]
    rcases hov : isOversizeMsg em with _ | _
    · refine ⟨[Event.newItem iid, Event.attempt iid (fullMsgOf e),
        Event.errorLogged iid em], ?_⟩
      rw [processEntry_candidate_failOther he hie hmem hs hov]
      refine ⟨by simp, ?_, ?_, ?_, ?_, ?_, ?_⟩ <;>
        simp_all [deliveredIds, Event.deliveredId]
    rcases hsh : send (shortMsgOf e) with _ | em2
    · refine ⟨[Event.newItem iid, Event.attempt iid (fullMsgOf e),
        Event.errorLogged iid em, Event.attempt iid (shortMsgOf e),
        Event.delivered iid], ?_⟩
      rw [processEntry_oversize_ok he hie hmem hs hov hsh]
      refine ⟨by simp, ?_, ?_, ?_, ?_, ?_, ?_⟩ <;>
          simp_all [deliveredIds, Event.deliveredId,
            sendFailsFor_false_of_short_ok hs hov hsh] <;>
        (rintro x m (⟨rfl, -⟩ | ⟨rfl, -⟩) <;> exact ⟨rfl, hmem⟩)
    · refine ⟨[Event.newItem iid, Event.attempt iid (fullMsgOf e),
        Event.errorLogged iid em, Event.attempt iid (shortMsgOf e),
        Event.errorLogged iid em2], ?_⟩
      rw [processEntry_oversize_fail he hie hmem hs hov hsh]
      refine ⟨by simp, ?_, ?_, ?_, ?_, ?_, ?_⟩ <;>
          simp_all [deliveredIds, Event.deliveredId] <;>
        (rintro x m (⟨rfl, -⟩ | ⟨rfl, -⟩) <;> exact ⟨rfl, hmem⟩)
  · -- iid empty: isEmpty = true means iid = []
    have hnil : iid = [] := by
      cases iid with
      | nil => rfl
      | cons a l => simp at hie
    subst hnil
    refine ⟨[Event.warnNoId], ?_⟩
    simp [processEntry_emptyId he, deliveredIds, Event.deliveredId]

end RssBot

namespace RssBot

lemma deliveredIds_append (a b : List Event) :
    deliveredIds (a ++ b) = deliveredIds a ++ deliveredIds b :=
  List.filterMap_append a b Event.deliveredId

lemma mem_deliveredIds {x : Str} {tr : List Event} :
    x ∈ deliveredIds tr ↔ Event.delivered x ∈ tr := by
  simp only [deliveredIds, List.mem_filterMap]
  constructor
  · rintro ⟨ev, hev, hid⟩
    cases ev <;> simp [Event.deliveredId] at hid
    subst hid; exact hev
  · intro h; exact ⟨Event.delivered x, h, rfl⟩

lemma runEntries_spec (send : Str → SendResult) (es : List Entry) :
    ∀ (st : State), ∃ evs,
    (runEntries send es st).trace = st.trace ++ evs ∧
    (runEntries send es st).file =
      st.file ++ ((deliveredIds evs).map (fun i => i ++ [nl])).flatten ∧
    (∀ x, x ∈ (runEntries send es st).sent ↔ x ∈ deliveredIds evs ∨ x ∈ st.sent) ∧
    (∀ x, x ∈ deliveredIds evs →
      (∃ e ∈ es, entryItemId e = some x ∧ sendFailsFor send e = false) ∧
        x ∉ st.sent) ∧
    (∀ x m, Event.attempt x m ∈ evs →
      (∃ e ∈ es, entryItemId e = some x) ∧ x ∉ st.sent) ∧
    (∀ x, Event.newItem x ∈ evs →
      (∃ e ∈ es, entryItemId e = some x) ∧ x ∉ st.sent) ∧
    (∀ x m, Event.errorLogged x m ∈ evs →
      (∃ e ∈ es, entryItemId e = some x) ∧ x ∉ st.sent) := by
  induction es with
  | nil =>
    intro st
    exact ⟨[], by simp [runEntries, deliveredIds]⟩
  | cons e es ih =>
    intro st
    obtain ⟨evs1, h1t, h1f, h1s, h1d, h1a, h1n, h1e⟩ := processEntry_spec send st e
    obtain ⟨evs2, h2t, h2f, h2s, h2d, h2a, h2n, h2e⟩ := ih (processEntry send st e)
    have hstep : runEntries send (e :: es) st =
        runEntries send es (processEntry send st e) := rfl
    have hout : ∀ x : Str, x ∉ (processEntry send st e).sent → x ∉ st.sent := by
      intro x hx hmem
      exact hx ((h1s x).2 (Or.inr hmem))
    refine ⟨evs1 ++ evs2, ?_, ?_, ?_, ?_, ?_, ?_, ?_⟩
    · rw [hstep, h2t, h1t, List.append_assoc]
    · rw [hstep, h2f, h1f, deliveredIds_append, List.map_append,
        List.flatten_append, List.append_assoc]
    · intro x
      rw [hstep, h2s x, h1s x, deliveredIds_append, List.mem_append]
      tauto
    · intro x hx
      rw [deliveredIds_append, List.mem_append] at hx
      rcases hx with hx | hx
      · obtain ⟨he, hxs, hfail⟩ := h1d x hx
        exact ⟨⟨e, List.mem_cons_self e es, he, hfail⟩, hxs⟩
      · obtain ⟨⟨e2, he2, hid, hfail⟩, hxs⟩ := h2d x hx
        exact ⟨⟨e2, List.mem_cons_of_mem e he2, hid, hfail⟩, hout x hxs⟩
    · intro x m hx
      rcases List.mem_append.1 hx with hx | hx
      · obtain ⟨he, hxs⟩ := h1a x m hx
        exact ⟨⟨e, List.mem_cons_self e es, he⟩, hxs⟩
      · obtain ⟨⟨e2, he2, hid⟩, hxs⟩ := h2a x m hx
        exact ⟨⟨e2, List.mem_cons_of_mem e he2, hid⟩, hout x hxs⟩
    · intro x hx
      rcases List.mem_append.1 hx with hx | hx
      · obtain ⟨he, hxs⟩ := h1n x hx
        exact ⟨⟨e, List.mem_cons_self e es, he⟩, hxs⟩
      · obtain ⟨⟨e2, he2, hid⟩, hxs⟩ := h2n x hx
        exact ⟨⟨e2, List.mem_cons_of_mem e he2, hid⟩, hout x hxs⟩
    · intro x m hx
      rcases List.mem_append.1 hx with hx | hx
      · obtain ⟨he, hxs⟩ := h1e x m hx
        exact ⟨⟨e, List.mem_cons_self e es, he⟩, hxs⟩
      · obtain ⟨⟨e2, he2, hid⟩, hxs⟩ := h2e x m hx
        exact ⟨⟨e2, List.mem_cons_of_mem e he2, hid⟩, hout x hxs⟩

end RssBot

namespace RssBot

variable {send : Str → SendResult} {st : State} {e : Entry} {iid : Str}

lemma attempt_mem_processEntry (h : entryItemId e = some iid)
    (hne : iid.isEmpty = false) (hmem : iid ∉ st.sent) :
    Event.attempt iid (fullMsgOf e) ∈ (processEntry send st e).trace := by
  rcases hs : send (fullMsgOf e) with _ | em
  · rw [processEntry_candidate_ok h hne hmem hs]; simp
  rcases hov : isOversizeMsg em with _ | _
  · rw [processEntry_candidate_failOther h hne hmem hs hov]; simp
  rcases hsh : send (shortMsgOf e) with _ | em2
  · rw [processEntry_oversize_ok h hne hmem hs hov hsh]; simp
  · rw [processEntry_oversize_fail h hne hmem hs hov hsh]; simp

/-- C1: an id in the in-memory sent set at the start of a cycle is never the
subject of a send attempt, never re-delivered, and the file grows only by
records of other delivered ids. -/
theorem noDuplicateDelivery (send : Str → SendResult) (entries : List Entry)
    (sent0 : List Str) (file0 : Str) (id : Str) (hid : id ∈ sent0) :
    (∀ m, Event.attempt id m ∉ (runCycle send entries sent0 file0).trace) ∧
    Event.delivered id ∉ (runCycle send entries sent0 file0).trace ∧
    ∃ ds : List Str, (runCycle send entries sent0 file0).file =
      file0 ++ ((ds.map (fun i => i ++ [nl])).flatten) ∧ id ∉ ds := by
  obtain ⟨evs, ht, hf, hs, hd, ha, hn, he⟩ :=
    runEntries_spec send entries.reverse (initState sent0 file0)
  have htr : (runCycle send entries sent0 file0).trace = evs := by
    rw [runCycle, ht]; simp [initState]
  refine ⟨?_, ?_, deliveredIds evs, ?_, ?_⟩
  · intro m hmem
    rw [htr] at hmem
    exact (ha id m hmem).2 hid
  · intro hmem
    rw [htr] at hmem
    exact (hd id (mem_deliveredIds.2 hmem)).2 hid
  · unfold runCycle
    rw [hf]; simp [initState]
  · intro hmem
    exact (hd id hmem).2 hid

theorem noDuplicateDelivery_witness :
    (∀ m, Event.attempt ['a'] m ∉ (runCycle sendOk [wEntryA] [['a']] []).trace) ∧
    Event.delivered ['a'] ∉ (runCycle sendOk [wEntryA] [['a']] []).trace ∧
    ∃ ds : List Str, (runCycle sendOk [wEntryA] [['a']] []).file =
      [] ++ ((ds.map (fun i => i ++ [nl])).flatten) ∧ ['a'] ∉ ds :=
  noDuplicateDelivery sendOk [wEntryA] [['a']] [] ['a'] (by decide)

/-- C6: when every feed occurrence of an id fails to send (including a
failed short-form retry after an oversize failure), that id ends the cycle
recorded neither in the in-memory set nor in the durable file, and the entry
is attempted again on the next cycle. -/
theorem atomicityOnSendFailure (send : Str → SendResult) (entries : List Entry)
    (sent0 : List Str) (file0 : Str) (e : Entry) (id : Str)
    (hmem : e ∈ entries) (hid : entryItemId e = some id) (hne : id.isEmpty = false)
    (hfresh : id ∉ sent0)
    (hfails : ∀ e2 ∈ entries, entryItemId e2 = some id →
      sendFailsFor send e2 = true) :
    id ∉ (runCycle send entries sent0 file0).sent ∧
    Event.delivered id ∉ (runCycle send entries sent0 file0).trace ∧
    (∃ ds : List Str, (runCycle send entries sent0 file0).file =
      file0 ++ ((ds.map (fun i => i ++ [nl])).flatten) ∧ id ∉ ds) ∧
    Event.attempt id (fullMsgOf e) ∈
      (runCycle send [e] (runCycle send entries sent0 file0).sent
        (runCycle send entries sent0 file0).file).trace := by
  obtain ⟨evs, ht, hf, hs, hd, ha, hn, he⟩ :=
    runEntries_spec send entries.reverse (initState sent0 file0)
  have hnotd : id ∉ deliveredIds evs := by
    intro hmemd
    obtain ⟨⟨e2, he2, hid2, hfail2⟩, -⟩ := hd id hmemd
    rw [hfails e2 (List.mem_reverse.1 he2) hid2] at hfail2
    exact absurd hfail2 (by decide)
  have hsent : id ∉ (runCycle send entries sent0 file0).sent := by
    intro hmem2
    rcases (hs id).1 hmem2 with h | h
    · exact hnotd h
    · exact hfresh (by simpa [initState] using h)
  refine ⟨hsent, ?_, ⟨deliveredIds evs, ?_, hnotd⟩, ?_⟩
  · intro hmem2
    have : id ∈ deliveredIds evs := by
      rw [runCycle, ht] at hmem2
      simp only [initState] at hmem2
      exact mem_deliveredIds.2 (by simpa using hmem2)
    exact hnotd this
  · unfold runCycle
    rw [hf]; simp [initState]
  · show Event.attempt id (fullMsgOf e) ∈
      (runEntries send [e].reverse (initState _ _)).trace
    simp only [List.reverse_singleton, runEntries]
    exact attempt_mem_processEntry hid hne (by simpa [initState] using hsent)

theorem atomicityOnSendFailure_witness :
    ['a'] ∉ (runCycle sendFail [wEntryA] [] []).sent ∧
    Event.delivered ['a'] ∉ (runCycle sendFail [wEntryA] [] []).trace ∧
    (∃ ds : List Str, (runCycle sendFail [wEntryA] [] []).file =
      [] ++ ((ds.map (fun i => i ++ [nl])).flatten) ∧ ['a'] ∉ ds) ∧
    Event.attempt ['a'] (fullMsgOf wEntryA) ∈
      (runCycle sendFail [wEntryA] (runCycle sendFail [wEntryA] [] []).sent
        (runCycle sendFail [wEntryA] [] []).file).trace :=
  atomicityOnSendFailure sendFail [wEntryA] [] [] wEntryA ['a']
    (by decide) (by decide) (by decide) (by decide) (by decide)

end RssBot

namespace RssBot

variable {send : Str → SendResult} {st : State} {e : Entry} {iid : Str}

lemma newItemIds_append (a b : List Event) :
    newItemIds (a ++ b) = newItemIds a ++ newItemIds b :=
  List.filterMap_append a b Event.newItemId

lemma attemptIds_append (a b : List Event) :
    attemptIds (a ++ b) = attemptIds a ++ attemptIds b :=
  List.filterMap_append a b Event.attemptId

lemma validEntry_elim (hv : validEntry e = true) :
    ∃ i, entryItemId e = some i ∧ i.isEmpty = false := by
  unfold validEntry at hv
  rcases h : entryItemId e with _ | i
  · rw [h] at hv; exact absurd hv (by decide)
  · rw [h] at hv; exact ⟨i, rfl, by simpa using hv⟩

lemma entryIdD_eq (h : entryItemId e = some iid) : entryIdD e = iid := by
  simp [entryIdD, h]

lemma processEntry_newItems_candidate (h : entryItemId e = some iid)
    (hne : iid.isEmpty = false) (hmem : iid ∉ st.sent) :
    newItemIds (processEntry send st e).trace =
      newItemIds st.trace ++ [iid] := by
  rcases hs : send (fullMsgOf e) with _ | em
  · rw [processEntry_candidate_ok h hne hmem hs]
    simp [newItemIds, Event.newItemId, List.filterMap_append]
  rcases hov : isOversizeMsg em with _ | _
  · rw [processEntry_candidate_failOther h hne hmem hs hov]
    simp [newItemIds, Event.newItemId, List.filterMap_append]
  rcases hsh : send (shortMsgOf e) with _ | em2
  · rw [processEntry_oversize_ok h hne hmem hs hov hsh]
    simp [newItemIds, Event.newItemId, List.filterMap_append]
  · rw [processEntry_oversize_fail h hne hmem hs hov hsh]
    simp [newItemIds, Event.newItemId, List.filterMap_append]

lemma processEntry_sent_sub (h : entryItemId e = some iid) :
    ∀ x, x ∈ (processEntry send st e).sent → x = iid ∨ x ∈ st.sent := by
  intro x hx
  obtain ⟨evs, -, -, hs, hd, -, -, -⟩ := processEntry_spec send st e
  rcases (hs x).1 hx with hx2 | hx2
  · obtain ⟨hid, -, -⟩ := hd x hx2
    rw [h] at hid
    exact Or.inl (Option.some_injective _ hid.symm)
  · exact Or.inr hx2

lemma runEntries_order (send : Str → SendResult) (es : List Entry) :
    ∀ st : State, (∀ e ∈ es, validEntry e = true) →
    ((es.map entryIdD).Nodup) →
    (∀ e ∈ es, entryIdD e ∉ st.sent) →
    newItemIds (runEntries send es st).trace =
      newItemIds st.trace ++ es.map entryIdD ∧
    (∀ x, x ∈ (runEntries send es st).sent → x ∈ es.map entryIdD ∨ x ∈ st.sent) := by
  induction es with
  | nil =>
    intro st _ _ _
    exact ⟨by simp [runEntries], fun x hx => Or.inr hx⟩
  | cons e es ih =>
    intro st hvalid hnodup hfresh
    obtain ⟨iid, hid, hne⟩ := validEntry_elim (hvalid e (List.mem_cons_self e es))
    have hD : entryIdD e = iid := entryIdD_eq hid
    have hmem : iid ∉ st.sent := by
      have := hfresh e (List.mem_cons_self e es); rwa [hD] at this
    rw [List.map_cons] at hnodup
    have hcons := List.nodup_cons.1 hnodup
    have hnodup2 : (es.map entryIdD).Nodup := hcons.2
    have hhead : iid ∉ es.map entryIdD := by
      rw [← hD]; exact hcons.1
    have hfresh2 : ∀ e2 ∈ es, entryIdD e2 ∉ (processEntry send st e).sent := by
      intro e2 he2 hmem2
      rcases processEntry_sent_sub hid _ hmem2 with heq | hmem3
      · exact hhead (heq ▸ List.mem_map_of_mem entryIdD he2)
      · exact hfresh e2 (List.mem_cons_of_mem e he2) hmem3
    obtain ⟨ihn, ihs⟩ := ih (processEntry send st e) (fun e2 he2 =>
      hvalid e2 (List.mem_cons_of_mem e he2)) hnodup2 hfresh2
    have hstep : runEntries send (e :: es) st =
        runEntries send es (processEntry send st e) := rfl
    constructor
    · rw [hstep, ihn, processEntry_newItems_candidate hid hne hmem]
      simp [hD]
    · intro x hx
      rw [hstep] at hx
      rcases ihs x hx with hx2 | hx2
      · exact Or.inl (by simp [hD]; exact Or.inr (by simpa using hx2))
      · rcases processEntry_sent_sub hid x hx2 with heq | hx3
        · exact Or.inl (by simp [hD, heq])
        · exact Or.inr hx3

lemma runEntries_order_ok (es : List Entry) :
    ∀ st : State, (∀ e ∈ es, validEntry e = true) →
    ((es.map entryIdD).Nodup) →
    (∀ e ∈ es, entryIdD e ∉ st.sent) →
    attemptIds (runEntries sendOk es st).trace =
      attemptIds st.trace ++ es.map entryIdD ∧
    deliveredIds (runEntries sendOk es st).trace =
      deliveredIds st.trace ++ es.map entryIdD ∧
    (∀ x, x ∈ (runEntries sendOk es st).sent → x ∈ es.map entryIdD ∨ x ∈ st.sent) := by
  induction es with
  | nil =>
    intro st _ _ _
    exact ⟨by simp [runEntries], by simp [runEntries], fun x hx => Or.inr hx⟩
  | cons e es ih =>
    intro st hvalid hnodup hfresh
    obtain ⟨iid, hid, hne⟩ := validEntry_elim (hvalid e (List.mem_cons_self e es))
    have hD : entryIdD e = iid := entryIdD_eq hid
    have hmem : iid ∉ st.sent := by
      have := hfresh e (List.mem_cons_self e es); rwa [hD] at this
    rw [List.map_cons] at hnodup
    have hcons := List.nodup_cons.1 hnodup
    have hnodup2 : (es.map entryIdD).Nodup := hcons.2
    have hhead : iid ∉ es.map entryIdD := by
      rw [← hD]; exact hcons.1
    have hok : sendOk (fullMsgOf e) = SendResult.ok := rfl
    have hpe : processEntry sendOk st e =
        { sent := iid :: st.sent, file := st.file ++ iid ++ [nl],
          count := st.count + 1,
          trace := st.trace ++ [Event.newItem iid, Event.attempt iid (fullMsgOf e),
            Event.delivered iid] } :=
      processEntry_candidate_ok hid hne hmem hok
    have hfresh2 : ∀ e2 ∈ es, entryIdD e2 ∉ (processEntry sendOk st e).sent := by
      intro e2 he2 hmem2
      rw [hpe] at hmem2
      rcases List.mem_cons.1 hmem2 with heq | hmem3
      · exact hhead (heq ▸ List.mem_map_of_mem entryIdD he2)
      · exact hfresh e2 (List.mem_cons_of_mem e he2) hmem3
    obtain ⟨iha, ihd, ihs⟩ := ih (processEntry sendOk st e) (fun e2 he2 =>
      hvalid e2 (List.mem_cons_of_mem e he2)) hnodup2 hfresh2
    have hstep : runEntries sendOk (e :: es) st =
        runEntries sendOk es (processEntry sendOk st e) := rfl
    refine ⟨?_, ?_, ?_⟩
    · rw [hstep, iha, hpe]
      simp [attemptIds, Event.attemptId, List.filterMap_append, hD]
    · rw [hstep, ihd, hpe]
      simp [deliveredIds, Event.deliveredId, List.filterMap_append, hD]
    · intro x hx
      rw [hstep] at hx
      rcases ihs x hx with hx2 | hx2
      · exact Or.inl (by simp [hD]; exact Or.inr (by simpa using hx2))
      · rw [hpe] at hx2
        rcases List.mem_cons.1 hx2 with heq | hx3
        · exact Or.inl (by simp [hD, heq])
        · exact Or.inr hx3

/-- C2: with valid, pairwise-distinct, not-yet-sent entries arriving in
native newest-first order, the cycle considers the new entries oldest first
(the reversed feed order), and when every send succeeds the send attempts
and deliveries happen in exactly that oldest-first order. -/
theorem orderPreservation (send : Str → SendResult) (entries : List Entry)
    (sent0 : List Str) (file0 : Str)
    (hvalid : ∀ e ∈ entries, validEntry e = true)
    (hnodup : (entries.map entryIdD).Nodup)
    (hfresh : ∀ e ∈ entries, entryIdD e ∉ sent0) :
    newItemIds (runCycle send entries sent0 file0).trace =
      entries.reverse.map entryIdD ∧
    attemptIds (runCycle sendOk entries sent0 file0).trace =
      entries.reverse.map entryIdD ∧
    deliveredIds (runCycle sendOk entries sent0 file0).trace =
      entries.reverse.map entryIdD := by
  have hvalid2 : ∀ e ∈ entries.reverse, validEntry e = true := by
    intro e he; exact hvalid e (List.mem_reverse.1 he)
  have hnodup2 : (entries.reverse.map entryIdD).Nodup := by
    rw [List.map_reverse, List.nodup_reverse]; exact hnodup
  have hfresh2 : ∀ e ∈ entries.reverse, entryIdD e ∉ (initState sent0 file0).sent := by
    intro e he; simpa [initState] using hfresh e (List.mem_reverse.1 he)
  obtain ⟨hn, -⟩ := runEntries_order send entries.reverse (initState sent0 file0)
    hvalid2 hnodup2 hfresh2
  obtain ⟨ha, hd, -⟩ := runEntries_order_ok entries.reverse (initState sent0 file0)
    hvalid2 hnodup2 hfresh2
  refine ⟨?_, ?_, ?_⟩
  · rw [runCycle, hn]; simp [initState, newItemIds]
  · rw [runCycle, ha]; simp [initState, attemptIds]
  · rw [runCycle, hd]; simp [initState, deliveredIds]

theorem orderPreservation_witness :
    newItemIds (runCycle sendFail [eNw, eMd, eOd] [] []).trace =
      [eNw, eMd, eOd].reverse.map entryIdD ∧
    attemptIds (runCycle sendOk [eNw, eMd, eOd] [] []).trace =
      [eNw, eMd, eOd].reverse.map entryIdD ∧
    deliveredIds (runCycle sendOk [eNw, eMd, eOd] [] []).trace =
      [eNw, eMd, eOd].reverse.map entryIdD :=
  orderPreservation sendFail [eNw, eMd, eOd] [] []
    (by decide) (by decide) (by decide)

end RssBot

namespace RssBot

/-- C7: every combination of configuration, fetch outcome and transport
behaviour makes `check_rss_feed` return normally. -/
theorem noErrorEscapes (cfg : Config) (fetch : FetchOutcome)
    (send : Str → SendResult) (sent0 : List Str) (file0 : Str) :
    ∃ r, check_rss_feed cfg fetch send sent0 file0 = Outcome.returned r := by
  unfold check_rss_feed
  rcases fetch with e | ⟨bozo, entries⟩ <;> [skip; rcases bozo with _ | _] <;>
      split <;> (try split) <;> exact ⟨_, rfl⟩

/-- C8: an entry whose id and link are both empty or absent is dropped with
only a warning: no send attempt, no store change, no counted delivery and
no logged error. -/
theorem missingIdentity (send : Str → SendResult) (st : State) (e : Entry)
    (hid : e.id = some [] ∨ e.id = none)
    (hlink : e.link = some [] ∨ e.link = none) :
    processEntry send st e = { st with trace := st.trace ++ [Event.warnNoId] } := by
  rcases hid with h1 | h1
  · exact processEntry_emptyId (by simp [entryItemId, h1])
  · rcases hlink with h2 | h2
    · exact processEntry_emptyId (by simp [entryItemId, h1, h2])
    · exact processEntry_noId (by simp [entryItemId, h1, h2])

theorem missingIdentity_witness :
    processEntry sendOk (initState [] []) ⟨some [], some ['T'], some [], none, none⟩ =
      { initState [] [] with trace := [Event.warnNoId] } :=
  missingIdentity sendOk (initState [] [])
    ⟨some [], some ['T'], some [], none, none⟩ (Or.inl rfl) (Or.inl rfl)

/-- C9: an entry whose id key is present but empty uses the empty id even
when a non-empty link is present, so the entry is dropped rather than
falling back to the link. -/
theorem identityFallbackOnlyOnAbsentKey (send : Str → SendResult) (st : State)
    (e : Entry) (l : Str) (hid : e.id = some []) (hlink : e.link = some l)
    (hl : l.isEmpty = false) :
    entryItemId e = some [] ∧
    processEntry send st e = { st with trace := st.trace ++ [Event.warnNoId] } :=
  ⟨by simp [entryItemId, hid], processEntry_emptyId (by simp [entryItemId, hid])⟩

theorem identityFallbackOnlyOnAbsentKey_witness :
    entryItemId ⟨some [], some ['T'], some ['l'], none, none⟩ = some [] ∧
    processEntry sendOk (initState [] []) ⟨some [], some ['T'], some ['l'], none, none⟩ =
      { initState [] [] with trace := [Event.warnNoId] } :=
  identityFallbackOnlyOnAbsentKey sendOk (initState [] [])
    ⟨some [], some ['T'], some ['l'], none, none⟩ ['l'] rfl rfl rfl

/-- C10: the short form is always the bold escaped title followed by an
anchor around the escaped link — even for an empty link it ends with the
anchor closing, never with the `"No link available."` footer the full form
uses for empty links. -/
theorem shortFormAlwaysAnchor (title link description : Str) :
    shortMessage title link =
      "<b>".toList ++ pyEscape title ++ "</b>\n\n".toList ++
        shortAnchorOpen ++ pyEscape link ++ shortAnchorClose ∧
    shortAnchorClose <:+ shortMessage title link ∧
    ¬ (noLinkFooter <:+ shortMessage title link) ∧
    noLinkFooter <:+ fullMessage title [] description := by
  refine ⟨rfl, ?_, ?_, ?_⟩
  · unfold shortMessage
    exact List.suffix_append _ _
  · intro h
    obtain ⟨t, ht⟩ := h
    have h1 : (shortMessage title link).getLast? = noLinkFooter.getLast? := by
      rw [← ht, List.getLast?_append_of_ne_nil _ (by decide)]
    have h2 : (shortMessage title link).getLast? = shortAnchorClose.getLast? := by
      unfold shortMessage
      rw [List.getLast?_append_of_ne_nil _ (by decide)]
    rw [h1] at h2
    exact absurd h2 (by decide)
  · unfold fullMessage
    simp only [List.isEmpty_nil, if_true]
    exact List.suffix_append _ _

theorem shortFormAlwaysAnchor_witness :
    shortMessage ['T'] [] =
      "<b>".toList ++ pyEscape ['T'] ++ "</b>\n\n".toList ++
        shortAnchorOpen ++ pyEscape [] ++ shortAnchorClose ∧
    shortAnchorClose <:+ shortMessage ['T'] [] ∧
    ¬ (noLinkFooter <:+ shortMessage ['T'] []) ∧
    noLinkFooter <:+ fullMessage ['T'] [] ['d'] :=
  shortFormAlwaysAnchor ['T'] [] ['d']

end RssBot

namespace RssBot

lemma ellipsisStr_length : ellipsisStr.length = 3 := rfl
lemma nlnl_length : nlnl.length = 2 := rfl
lemma anchorOpen_length : anchorOpen.length = 9 := rfl
lemma anchorClose_length : anchorClose.length = 15 := rfl
lemma noLinkFooter_length : noLinkFooter.length = 18 := rfl

lemma shortMessage_length (t l : Str) :
    (shortMessage t l).length = (pyEscape t).length + (pyEscape l).length + 33 := by
  simp [shortMessage, shortAnchorOpen, shortAnchorClose]
  omega

lemma pySliceTo_length_eq {s : Str} {n : Int} (hnn : 0 ≤ n)
    (hlt : n < (s.length : Int)) : (pySliceTo s n).length = n.toNat := by
  rw [pySliceTo, if_pos hnn, List.length_take]
  omega

lemma fullMessage_length_truncated (title link description : Str)
    (hgt : (MAX_MESSAGE_LENGTH : Int) - (titleBlock title).length - link.length - 50
      < (description.length : Int))
    (hnn : 0 ≤ (MAX_MESSAGE_LENGTH : Int) - (titleBlock title).length - link.length - 50)
    (hlink : link.isEmpty = false) :
    ((fullMessage title link description).length : Int) =
      (MAX_MESSAGE_LENGTH : Int) - link.length + (pyEscape link).length - 21 := by
  have hd : description.isEmpty = false := by
    cases description with
    | nil =>
      exfalso
      simp only [List.length_nil, Nat.cast_zero] at hgt
      omega
    | cons a l => rfl
  simp only [fullMessage, hd, hlink, Bool.false_eq_true, if_false]
  split
  · have hslice := pySliceTo_length_eq hnn hgt
    simp only [List.length_append, hslice, ellipsisStr_length, nlnl_length,
      anchorOpen_length, anchorClose_length]
    push_cast
    omega
  · rename_i hcond
    exact absurd hgt hcond

/-- C3 as stated is false: when the link's HTML-escaped form is much longer
than the raw link used in the budget, the truncated full message exceeds
`MAX_MESSAGE_LENGTH`. -/
theorem truncationBound_counterexample :
    ((MAX_MESSAGE_LENGTH : Int) - ((titleBlock cexTitle).length : Int) -
      (cexLink.length : Int) - 50 < (cexDescription.length : Int)) ∧
    MAX_MESSAGE_LENGTH < (fullMessage cexTitle cexLink cexDescription).length := by
  have hlen : cexDescription.length = 4030 := by
    simp only [cexDescription, List.length_cons, List.length_replicate]
  have htb : (titleBlock cexTitle).length = 10 := rfl
  have hll : cexLink.length = 7 := rfl
  have hgt : (MAX_MESSAGE_LENGTH : Int) - ((titleBlock cexTitle).length : Int) -
      (cexLink.length : Int) - 50 < (cexDescription.length : Int) := by
    rw [hlen, htb, hll]; norm_num [MAX_MESSAGE_LENGTH]
  refine ⟨hgt, ?_⟩
  have heq := fullMessage_length_truncated cexTitle cexLink cexDescription hgt
    (by rw [htb, hll]; norm_num [MAX_MESSAGE_LENGTH]) rfl
  have hesc : (pyEscape cexLink).length = 31 := rfl
  rw [hll, hesc] at heq
  have h4099 : ((fullMessage cexTitle cexLink cexDescription).length : Int) = 4099 := by
    rw [heq]; norm_num [MAX_MESSAGE_LENGTH]
  have : (MAX_MESSAGE_LENGTH : Int) = 4096 := by norm_num [MAX_MESSAGE_LENGTH]
  omega

/-- C3 amended: the truncated full message stays within
`MAX_MESSAGE_LENGTH` provided the computed budget is non-negative and
HTML-escaping the link adds at most 21 characters. -/
theorem truncationBound (title link description : Str)
    (hgt : (MAX_MESSAGE_LENGTH : Int) - (titleBlock title).length - link.length - 50
      < (description.length : Int))
    (hnn : 0 ≤ (MAX_MESSAGE_LENGTH : Int) - (titleBlock title).length - link.length - 50)
    (hesc : (pyEscape link).length ≤ link.length + 21) :
    (fullMessage title link description).length ≤ MAX_MESSAGE_LENGTH := by
  have hd : description.isEmpty = false := by
    cases description with
    | nil =>
      exfalso
      simp only [List.length_nil, Nat.cast_zero] at hgt
      omega
    | cons a l => rfl
  rcases hl : link.isEmpty with _ | _
  · have heq := fullMessage_length_truncated title link description hgt hnn hl
    omega
  · have h0 : link = [] := by
      cases link with
      | nil => rfl
      | cons a l => simp at hl
    subst h0
    simp only [fullMessage, hd, Bool.false_eq_true, if_false,
      List.isEmpty_nil, if_true]
    split
    · have hslice := pySliceTo_length_eq hnn hgt
      simp only [List.length_append, hslice, ellipsisStr_length, nlnl_length,
        noLinkFooter_length]
      simp only [List.length_nil, Nat.cast_zero] at hnn
      omega
    · rename_i hcond
      exact absurd hgt hcond

theorem truncationBound_witness :
    ((MAX_MESSAGE_LENGTH : Int) - ((titleBlock ['T']).length : Int) -
      (("http://e".toList).length : Int) - 50 <
        ((('d' :: List.replicate 4100 'd') : Str).length : Int)) ∧
    (fullMessage ['T'] "http://e".toList ('d' :: List.replicate 4100 'd')).length ≤
      MAX_MESSAGE_LENGTH := by
  have htb : (titleBlock ['T']).length = 10 := rfl
  have hll : ("http://e".toList).length = 8 := rfl
  have hesc : (pyEscape "http://e".toList).length = 8 := rfl
  have hlen : (('d' :: List.replicate 4100 'd') : Str).length = 4101 := by
    simp only [List.length_cons, List.length_replicate]
  have h1 : (MAX_MESSAGE_LENGTH : Int) - ((titleBlock ['T']).length : Int) -
      (("http://e".toList).length : Int) - 50 <
        ((('d' :: List.replicate 4100 'd') : Str).length : Int) := by
    rw [htb, hll, hlen]; norm_num [MAX_MESSAGE_LENGTH]
  exact ⟨h1, truncationBound ['T'] "http://e".toList ('d' :: List.replicate 4100 'd')
    h1 (by rw [htb, hll]; norm_num [MAX_MESSAGE_LENGTH]) (by rw [hesc, hll]; norm_num)⟩

end RssBot

namespace RssBot

lemma pyEscape_replicate (n : Nat) (c : Char) (h : escapeChar c = [c]) :
    pyEscape (List.replicate n c) = List.replicate n c := by
  induction n with
  | zero => rfl
  | succ n ih =>
    rw [List.replicate_succ]
    simp only [pyEscape, List.flatMap_cons] at *
    rw [h, ih]
    rfl

/-- C4 as stated is false: the short form is not independently bounded —
an entry with a 5000-character title yields a short form longer than
`MAX_MESSAGE_LENGTH`. -/
theorem fallbackCorrectness_counterexample :
    MAX_MESSAGE_LENGTH < (shortMessage (List.replicate 5000 'T') []).length := by
  rw [shortMessage_length, pyEscape_replicate 5000 'T' rfl]
  simp only [List.length_replicate]
  norm_num [MAX_MESSAGE_LENGTH, pyEscape]

/-- C4 amended: after an oversize-classified send failure the very next
attempt for the same entry is the short form; and the short form respects
`MAX_MESSAGE_LENGTH` whenever the escaped title and escaped link fit in the
budget `MAX_MESSAGE_LENGTH - 33`. -/
theorem fallbackCorrectness :
    (∀ (send : Str → SendResult) (st : State) (e : Entry) (iid m : Str),
      entryItemId e = some iid → iid.isEmpty = false → iid ∉ st.sent →
      send (fullMsgOf e) = SendResult.exn m → isOversizeMsg m = true →
      ∃ evs2, (processEntry send st e).trace =
        st.trace ++ [Event.newItem iid, Event.attempt iid (fullMsgOf e),
          Event.errorLogged iid m, Event.attempt iid (shortMsgOf e)] ++ evs2) ∧
    (∀ title link : Str,
      (pyEscape title).length + (pyEscape link).length + 33 ≤ MAX_MESSAGE_LENGTH →
      (shortMessage title link).length ≤ MAX_MESSAGE_LENGTH) := by
  constructor
  · intro send st e iid m hid hne hmem hsend hover
    rcases hsh : send (shortMsgOf e) with _ | em2
    · refine ⟨[Event.delivered iid], ?_⟩
      rw [processEntry_oversize_ok hid hne hmem hsend hover hsh]
      simp
    · refine ⟨[Event.errorLogged iid em2], ?_⟩
      rw [processEntry_oversize_fail hid hne hmem hsend hover hsh]
      simp
  · intro title link h
    rw [shortMessage_length]
    omega

theorem fallbackCorrectness_witness :
    (∃ evs2, (processEntry sendOversize (initState [] []) wEntryA).trace =
      (initState [] []).trace ++ [Event.newItem ['a'],
        Event.attempt ['a'] (fullMsgOf wEntryA),
        Event.errorLogged ['a'] "Message is too long".toList,
        Event.attempt ['a'] (shortMsgOf wEntryA)] ++ evs2) ∧
    (shortMessage ['T'] ['l']).length ≤ MAX_MESSAGE_LENGTH :=
  ⟨fallbackCorrectness.1 sendOversize (initState [] []) wEntryA ['a']
      "Message is too long".toList rfl rfl (by simp [initState]) rfl (by decide),
    fallbackCorrectness.2 ['T'] ['l'] (by decide)⟩

end RssBot

namespace RssBot

lemma pyLinesAux_nil (acc : Str) :
    pyLinesAux [] acc = if acc.isEmpty then [] else [acc.reverse] := rfl

lemma pyLinesAux_cons (c : Char) (rest acc : Str) :
    pyLinesAux (c :: rest) acc =
      if c = nl then (acc.reverse ++ [nl]) :: pyLinesAux rest []
      else pyLinesAux rest (c :: acc) := rfl

lemma pyLinesAux_no_nl (id : Str) (hnl : nl ∉ id) :
    ∀ acc, pyLinesAux (id ++ [nl]) acc = [acc.reverse ++ id ++ [nl]] := by
  induction id with
  | nil =>
    intro acc
    rw [List.nil_append, pyLinesAux_cons, if_pos rfl, pyLinesAux_nil]
    simp
  | cons c cs ih =>
    intro acc
    have hc : c ≠ nl := fun h => hnl (h ▸ List.mem_cons_self c cs)
    rw [List.cons_append, pyLinesAux_cons, if_neg hc,
      ih (fun h => hnl (List.mem_cons_of_mem c h)) (c :: acc)]
    simp

lemma pyLinesAux_append (id : Str) (hnl : nl ∉ id) (file : Str) :
    file.getLast? = some nl →
    ∀ acc, pyLinesAux (file ++ id ++ [nl]) acc =
      pyLinesAux file acc ++ [id ++ [nl]] := by
  induction file with
  | nil =>
    intro h
    simp at h
  | cons c rest ih =>
    intro hlast acc
    cases rest with
    | nil =>
      have hc : c = nl := by simpa using hlast
      subst hc
      have harr : (nl :: ([] : Str)) ++ id ++ [nl] = nl :: (id ++ [nl]) := by simp
      rw [harr, pyLinesAux_cons, if_pos rfl, pyLinesAux_no_nl id hnl [],
        pyLinesAux_cons, if_pos rfl, pyLinesAux_nil]
      simp
    | cons d rest2 =>
      have hlast2 : (d :: rest2).getLast? = some nl := by
        rwa [List.getLast?_cons_cons] at hlast
      have harr : (c :: d :: rest2) ++ id ++ [nl] =
          c :: ((d :: rest2) ++ id ++ [nl]) := by simp
      by_cases hc : c = nl
      · subst hc
        rw [harr, pyLinesAux_cons, if_pos rfl, ih hlast2 [],
          show pyLinesAux (nl :: d :: rest2) acc =
            (acc.reverse ++ [nl]) :: pyLinesAux (d :: rest2) [] from
            by rw [pyLinesAux_cons, if_pos rfl]]
        simp
      · rw [harr, pyLinesAux_cons, if_neg hc, ih hlast2 (c :: acc),
          show pyLinesAux (c :: d :: rest2) acc =
            pyLinesAux (d :: rest2) (c :: acc) from
            by rw [pyLinesAux_cons, if_neg hc]]

lemma pyLines_save (file id : Str) (hnl : nl ∉ id)
    (hfile : file = [] ∨ file.getLast? = some nl) :
    pyLines (file ++ id ++ [nl]) = pyLines file ++ [id ++ [nl]] := by
  rcases hfile with h | h
  · subst h
    simp only [List.nil_append, pyLines]
    rw [pyLinesAux_no_nl id hnl [], pyLinesAux_nil]
    simp
  · exact pyLinesAux_append id hnl file h []

lemma dropWhile_eq_self_of_pyStrip {id : Str} (hid : pyStrip id = id) :
    id.dropWhile isPySpace = id := by
  have hsuf : id.dropWhile isPySpace <:+ id := List.dropWhile_suffix _
  refine hsuf.eq_of_length ?_
  have h1 : (pyStrip id).length ≤ (id.dropWhile isPySpace).length := by
    unfold pyStrip
    rw [List.length_reverse]
    calc ((id.dropWhile isPySpace).reverse.dropWhile isPySpace).length
        ≤ (id.dropWhile isPySpace).reverse.length :=
          (List.dropWhile_suffix _).length_le
      _ = (id.dropWhile isPySpace).length := List.length_reverse _
  have h2 : (id.dropWhile isPySpace).length ≤ id.length :=
    (List.dropWhile_suffix _).length_le
  rw [hid] at h1
  omega

lemma reverse_dropWhile_eq_self {id : Str} (hid : pyStrip id = id) :
    id.reverse.dropWhile isPySpace = id.reverse := by
  have h1 := dropWhile_eq_self_of_pyStrip hid
  have h2 : ((id.dropWhile isPySpace).reverse.dropWhile isPySpace).reverse = id := hid
  rw [h1] at h2
  have h3 := congrArg List.reverse h2
  simpa using h3

lemma pyStrip_append_nl {id : Str} (hid : pyStrip id = id) (hne : id ≠ []) :
    pyStrip (id ++ [nl]) = id := by
  obtain ⟨c, cs, rfl⟩ := List.exists_cons_of_ne_nil hne
  have h1 := dropWhile_eq_self_of_pyStrip hid
  have hwc : isPySpace c = false := by
    by_contra h
    rw [Bool.not_eq_false] at h
    rw [List.dropWhile_cons, if_pos h] at h1
    have hlen := congrArg List.length h1
    have hle : (cs.dropWhile isPySpace).length ≤ cs.length :=
      (List.dropWhile_suffix isPySpace).length_le
    simp only [List.length_cons] at hlen
    omega
  have h2 := reverse_dropWhile_eq_self hid
  unfold pyStrip
  rw [List.cons_append, List.dropWhile_cons, if_neg (by simp [hwc])]
  have hrev : (c :: (cs ++ [nl])).reverse = nl :: (c :: cs).reverse := by
    simp
  rw [hrev, List.dropWhile_cons, if_pos (by simp [isPySpace])]
  rw [h2]
  simp

/-- C5 as stated is false: recording the id `" "` (a single space) and
loading back yields a store that does not contain it, because loading
strips each line and drops blanks. -/
theorem storeRoundTrip_counterexample :
    [' '] ∉ load_sent_items (some ((saveSentItem (initState [] []) [' ']).file)) := by
  decide

/-- C5 amended: loading with no file yields the empty set, loaded ids are
never blank, and recording an id that is non-empty, newline-free and equal
to its own strip makes it a member of the in-memory set and of the next
load, provided the prior file is empty or newline-terminated. -/
theorem storeRoundTrip :
    load_sent_items none = [] ∧
    (∀ f s, s ∈ load_sent_items (some f) → s ≠ []) ∧
    (∀ (st : State) (id : Str), id ≠ [] → pyStrip id = id → nl ∉ id →
      (st.file = [] ∨ st.file.getLast? = some nl) →
      id ∈ (saveSentItem st id).sent ∧
      id ∈ load_sent_items (some ((saveSentItem st id).file))) := by
  refine ⟨rfl, ?_, ?_⟩
  · intro f s hs
    simp only [load_sent_items] at hs
    rw [List.mem_filter] at hs
    intro h0
    subst h0
    simp at hs
  · intro st id hne hstrip hnl hfile
    refine ⟨List.mem_cons_self _ _, ?_⟩
    show id ∈ load_sent_items (some (st.file ++ id ++ [nl]))
    simp only [load_sent_items]
    rw [pyLines_save st.file id hnl hfile, List.map_append, List.filter_append]
    refine List.mem_append.2 (Or.inr ?_)
    simp only [List.map_cons, List.map_nil, pyStrip_append_nl hstrip hne]
    have hie : id.isEmpty = false := by
      cases id with
      | nil => exact absurd rfl hne
      | cons a l => rfl
    simp [List.filter, hie]

theorem storeRoundTrip_witness :
    ['a'] ∈ (saveSentItem (initState [] []) ['a']).sent ∧
    ['a'] ∈ load_sent_items (some ((saveSentItem (initState [] []) ['a']).file)) :=
  storeRoundTrip.2.2 (initState [] []) ['a'] (by decide) (by decide) (by decide)
    (Or.inl rfl)

end RssBot
